import Mathlib

/-!
Shallow embedding of the avail `subxt` client library.

The repository excerpt contains `src/subxt/src/client.rs` (ClientBuilder,
Client, SubmittableExtrinsic and its submission entry points).  The codec,
the metadata store, the extrinsic signing helper and the transaction
progress tracker are declared and used by that file but their sources are
not part of the excerpt; those parts are modelled from the specification
(each such definition carries a doc comment starting with
`Modelled from the spec:`).  Asynchronous RPC effects are modelled as pure
oracles (`Rpc` is a record of result-returning functions) and the status
subscription as the list of statuses delivered before the subscription
ended; every function additionally returns the trace of RPC calls it
performed, so that claims about "exactly one lookup" or "nothing was
submitted" are statable.
-/

set_option maxHeartbeats 1000000

namespace Subxt

/-! ## Codec (Modelled from the spec, §4.1: the SCALE-style codec crate is
not part of the excerpt).  Bytes are `Nat`s; little-endian fixed width
integers, SCALE compact integers, compact-length-prefixed sequences,
fixed byte arrays and single-byte-discriminant tagged unions. -/

/-- Little-endian byte string of `v`, exactly `n` bytes. -/
def toLE : Nat → Nat → List Nat
  | 0, _ => []
  | n + 1, v => v % 256 :: toLE n (v / 256)

/-- Value of a little-endian byte string. -/
def fromLE : List Nat → Nat
  | [] => 0
  | b :: bs => b + 256 * fromLE bs

/-- Number of bytes needed to store `v` (at least one). -/
def bytesNeeded (v : Nat) : Nat :=
  if _h : v < 256 then 1
  else 1 + bytesNeeded (v / 256)
decreasing_by exact Nat.div_lt_self (by omega) (by omega)

theorem toLE_length (n : Nat) : ∀ v, (toLE n v).length = n := by
  induction n with
  | zero => intro v; rfl
  | succ n ih => intro v; simp [toLE, ih]

theorem fromLE_toLE (n : Nat) : ∀ v, v < 256 ^ n → fromLE (toLE n v) = v := by
  induction n with
  | zero => intro v h; simp at h; simp [toLE, fromLE, h]
  | succ n ih =>
    intro v h
    have hdiv : v / 256 < 256 ^ n := by
      have h2 : 256 ^ (n + 1) = 256 ^ n * 256 := by rw [pow_succ]
      omega
    simp [toLE, fromLE, ih (v / 256) hdiv]
    omega

theorem lt_pow_bytesNeeded (v : Nat) : v < 256 ^ bytesNeeded v := by
  induction v using Nat.strong_induction_on with
  | _ v ih =>
    rw [bytesNeeded]
    split
    · next h => simpa using h
    · next h =>
      have hlt : v / 256 < v := Nat.div_lt_self (by omega) (by omega)
      have h3 := ih (v / 256) hlt
      rw [pow_add, pow_one]
      have h4 : 256 * (v / 256 + 1) ≤ 256 * 256 ^ bytesNeeded (v / 256) :=
        Nat.mul_le_mul_left 256 h3
      omega

theorem bytesNeeded_le (v : Nat) : ∀ n, 1 ≤ n → v < 256 ^ n → bytesNeeded v ≤ n := by
  induction v using Nat.strong_induction_on with
  | _ v ih =>
    intro n h1 h
    rw [bytesNeeded]
    split
    · omega
    · next hge =>
      have hn2 : 2 ≤ n := by
        by_contra hc
        have hn1 : n = 1 := by omega
        subst hn1
        simp at h
        omega
      have hlt : v / 256 < v := Nat.div_lt_self (by omega) (by omega)
      have hpow : 256 ^ n = 256 ^ (n - 1) * 256 := by
        conv_lhs => rw [show n = (n - 1) + 1 by omega]
        rw [pow_succ]
      have hdiv : v / 256 < 256 ^ (n - 1) := by omega
      have := ih (v / 256) hlt (n - 1) (by omega) hdiv
      omega

theorem bytesNeeded_ge_four (v : Nat) (h : 1073741824 ≤ v) : 4 ≤ bytesNeeded v := by
  by_contra hc
  have h1 : bytesNeeded v ≤ 3 := by omega
  have h2 : (256 : Nat) ^ bytesNeeded v ≤ 256 ^ 3 :=
    Nat.pow_le_pow_right (by omega) h1
  have := lt_pow_bytesNeeded v
  have h3 : (256 : Nat) ^ 3 = 16777216 := by norm_num
  omega

/-- Modelled from the spec: SCALE compact ("prefix-length") encoding of a
natural number, two-bit mode tag in the first byte. -/
def encodeCompact (v : Nat) : List Nat :=
  if v < 64 then [4 * v]
  else if v < 16384 then toLE 2 (4 * v + 1)
  else if v < 1073741824 then toLE 4 (4 * v + 2)
  else (4 * (bytesNeeded v - 4) + 3) :: toLE (bytesNeeded v) v

/-- Decoding failures: truncated input or an out-of-range union discriminant. -/
inductive DecodeError where
  | unexpectedEof
  | badDiscriminant (tag : Nat)
deriving DecidableEq

/-- Split off exactly `n` bytes, failing on truncated input. -/
def takeBytes : Nat → List Nat → Except DecodeError (List Nat × List Nat)
  | 0, bs => .ok ([], bs)
  | _ + 1, [] => .error .unexpectedEof
  | n + 1, b :: bs =>
    match takeBytes n bs with
    | .ok (xs, rest) => .ok (b :: xs, rest)
    | .error e => .error e

theorem takeBytes_append (xs : List Nat) : ∀ rest, takeBytes xs.length (xs ++ rest) = .ok (xs, rest) := by
  induction xs with
  | nil => intro rest; rfl
  | cons b xs ih => intro rest; simp [takeBytes, ih rest]

theorem takeBytes_toLE (n v : Nat) (rest : List Nat) :
    takeBytes n (toLE n v ++ rest) = .ok (toLE n v, rest) := by
  have h := takeBytes_append (toLE n v) rest
  rwa [toLE_length] at h

theorem takeBytes_short (n : Nat) : ∀ bs : List Nat, bs.length < n →
    takeBytes n bs = .error .unexpectedEof := by
  induction n with
  | zero => intro bs h; omega
  | succ n ih =>
    intro bs h
    cases bs with
    | nil => rfl
    | cons b bs =>
      simp at h
      simp [takeBytes, ih bs (by omega)]

/-- Modelled from the spec: decoder for compact integers. -/
def decodeCompact : List Nat → Except DecodeError (Nat × List Nat)
  | [] => .error .unexpectedEof
  | b :: bs =>
    if b % 4 = 0 then .ok (b / 4, bs)
    else if b % 4 = 1 then
      match bs with
      | b2 :: rest => .ok ((b + 256 * b2) / 4, rest)
      | [] => .error .unexpectedEof
    else if b % 4 = 2 then
      match bs with
      | b2 :: b3 :: b4 :: rest =>
        .ok ((b + 256 * b2 + 65536 * b3 + 16777216 * b4) / 4, rest)
      | _ => .error .unexpectedEof
    else
      match takeBytes (b / 4 + 4) bs with
      | .ok (chunk, rest) => .ok (fromLE chunk, rest)
      | .error e => .error e

theorem decodeCompact_encodeCompact (v : Nat) (rest : List Nat) :
    decodeCompact (encodeCompact v ++ rest) = .ok (v, rest) := by
  unfold encodeCompact
  split
  · next h1 =>
    have hm : 4 * v % 4 = 0 := by omega
    simp [decodeCompact, hm]
  · split
    · next h1 h2 =>
      have hsum : (4 * v + 1) % 256 + 256 * ((4 * v + 1) / 256 % 256) = 4 * v + 1 := by
        have := fromLE_toLE 2 (4 * v + 1) (by norm_num; omega)
        simpa [toLE, fromLE] using this
      have hm : (4 * v + 1) % 256 % 4 = 1 := by
        rw [Nat.mod_mod_of_dvd _ (by norm_num)]
        omega
      simp [toLE, decodeCompact, hm]
      omega
    · split
      · next h1 h2 h3 =>
        have hsum : (4 * v + 2) % 256 + 256 * ((4 * v + 2) / 256 % 256)
            + 65536 * ((4 * v + 2) / 256 / 256 % 256)
            + 16777216 * ((4 * v + 2) / 256 / 256 / 256 % 256) = 4 * v + 2 := by
          have := fromLE_toLE 4 (4 * v + 2) (by norm_num; omega)
          simp [toLE, fromLE] at this
          omega
        have hm : (4 * v + 2) % 256 % 4 = 2 := by
          rw [Nat.mod_mod_of_dvd _ (by norm_num)]
          omega
        simp [toLE, decodeCompact, hm]
        omega
      · next h1 h2 h3 =>
        have h4 : 4 ≤ bytesNeeded v := bytesNeeded_ge_four v (by omega)
        have hm : (4 * (bytesNeeded v - 4) + 3) % 4 = 3 := by omega
        simp only [decodeCompact, List.cons_append, hm]
        norm_num [hm]
        have hdiv : (4 * (bytesNeeded v - 4) + 3) / 4 + 4 = bytesNeeded v := by omega
        rw [hdiv, takeBytes_toLE]
        simp [fromLE_toLE (bytesNeeded v) v (lt_pow_bytesNeeded v)]

/-- Modelled from the spec: the shapes the codec supports — fixed-width
little-endian integers, compact integers, compact-length-prefixed
sequences, fixed-size byte arrays and single-byte-discriminant tagged
unions. -/
inductive TypeDesc where
  | uint (w : Nat)
  | compact
  | seq (elem : TypeDesc)
  | bytes (n : Nat)
  | union (variants : List TypeDesc)

mutual
def decEqTypeDesc : (a b : TypeDesc) → Decidable (a = b)
  | .uint w, .uint w2 =>
    if h : w = w2 then .isTrue (by rw [h]) else
      .isFalse (by intro hc; cases hc; exact h rfl)
  | .compact, .compact => .isTrue rfl
  | .seq t, .seq t2 =>
    match decEqTypeDesc t t2 with
    | .isTrue h => .isTrue (by rw [h])
    | .isFalse h => .isFalse (by intro hc; cases hc; exact h rfl)
  | .bytes n, .bytes n2 =>
    if h : n = n2 then .isTrue (by rw [h]) else
      .isFalse (by intro hc; cases hc; exact h rfl)
  | .union ts, .union ts2 =>
    match decEqTypeDescList ts ts2 with
    | .isTrue h => .isTrue (by rw [h])
    | .isFalse h => .isFalse (by intro hc; cases hc; exact h rfl)
  | .uint _, .compact => .isFalse (by intro hc; cases hc)
  | .uint _, .seq _ => .isFalse (by intro hc; cases hc)
  | .uint _, .bytes _ => .isFalse (by intro hc; cases hc)
  | .uint _, .union _ => .isFalse (by intro hc; cases hc)
  | .compact, .uint _ => .isFalse (by intro hc; cases hc)
  | .compact, .seq _ => .isFalse (by intro hc; cases hc)
  | .compact, .bytes _ => .isFalse (by intro hc; cases hc)
  | .compact, .union _ => .isFalse (by intro hc; cases hc)
  | .seq _, .uint _ => .isFalse (by intro hc; cases hc)
  | .seq _, .compact => .isFalse (by intro hc; cases hc)
  | .seq _, .bytes _ => .isFalse (by intro hc; cases hc)
  | .seq _, .union _ => .isFalse (by intro hc; cases hc)
  | .bytes _, .uint _ => .isFalse (by intro hc; cases hc)
  | .bytes _, .compact => .isFalse (by intro hc; cases hc)
  | .bytes _, .seq _ => .isFalse (by intro hc; cases hc)
  | .bytes _, .union _ => .isFalse (by intro hc; cases hc)
  | .union _, .uint _ => .isFalse (by intro hc; cases hc)
  | .union _, .compact => .isFalse (by intro hc; cases hc)
  | .union _, .seq _ => .isFalse (by intro hc; cases hc)
  | .union _, .bytes _ => .isFalse (by intro hc; cases hc)
def decEqTypeDescList : (a b : List TypeDesc) → Decidable (a = b)
  | [], [] => .isTrue rfl
  | [], _ :: _ => .isFalse (by intro hc; cases hc)
  | _ :: _, [] => .isFalse (by intro hc; cases hc)
  | t :: ts, t2 :: ts2 =>
    match decEqTypeDesc t t2 with
    | .isTrue h =>
      match decEqTypeDescList ts ts2 with
      | .isTrue h2 => .isTrue (by rw [h, h2])
      | .isFalse h2 => .isFalse (by intro hc; cases hc; exact h2 rfl)
    | .isFalse h => .isFalse (by intro hc; cases hc; exact h rfl)
end

instance : DecidableEq TypeDesc := decEqTypeDesc

mutual
/-- Modelled from the spec: a dynamic codec value of one of the supported shapes. -/
inductive Value where
  | uint (w : Nat) (v : Nat)
  | compact (v : Nat)
  | seq (elems : ValueList)
  | bytes (bs : List Nat)
  | union (tag : Nat) (payload : Value)
/-- Element list of a sequence value. -/
inductive ValueList where
  | nil
  | cons (hd : Value) (tl : ValueList)
end

mutual
def decEqValue : (a b : Value) → Decidable (a = b)
  | .uint w v, .uint w2 v2 =>
    if h : w = w2 ∧ v = v2 then .isTrue (by rw [h.1, h.2]) else
      .isFalse (by intro hc; cases hc; exact h ⟨rfl, rfl⟩)
  | .compact v, .compact v2 =>
    if h : v = v2 then .isTrue (by rw [h]) else
      .isFalse (by intro hc; cases hc; exact h rfl)
  | .seq vs, .seq vs2 =>
    match decEqValueList vs vs2 with
    | .isTrue h => .isTrue (by rw [h])
    | .isFalse h => .isFalse (by intro hc; cases hc; exact h rfl)
  | .bytes bs, .bytes bs2 =>
    if h : bs = bs2 then .isTrue (by rw [h]) else
      .isFalse (by intro hc; cases hc; exact h rfl)
  | .union t p, .union t2 p2 =>
    if h : t = t2 then
      match decEqValue p p2 with
      | .isTrue h2 => .isTrue (by rw [h, h2])
      | .isFalse h2 => .isFalse (by intro hc; cases hc; exact h2 rfl)
    else .isFalse (by intro hc; cases hc; exact h rfl)
  | .uint _ _, .compact _ => .isFalse (by intro hc; cases hc)
  | .uint _ _, .seq _ => .isFalse (by intro hc; cases hc)
  | .uint _ _, .bytes _ => .isFalse (by intro hc; cases hc)
  | .uint _ _, .union _ _ => .isFalse (by intro hc; cases hc)
  | .compact _, .uint _ _ => .isFalse (by intro hc; cases hc)
  | .compact _, .seq _ => .isFalse (by intro hc; cases hc)
  | .compact _, .bytes _ => .isFalse (by intro hc; cases hc)
  | .compact _, .union _ _ => .isFalse (by intro hc; cases hc)
  | .seq _, .uint _ _ => .isFalse (by intro hc; cases hc)
  | .seq _, .compact _ => .isFalse (by intro hc; cases hc)
  | .seq _, .bytes _ => .isFalse (by intro hc; cases hc)
  | .seq _, .union _ _ => .isFalse (by intro hc; cases hc)
  | .bytes _, .uint _ _ => .isFalse (by intro hc; cases hc)
  | .bytes _, .compact _ => .isFalse (by intro hc; cases hc)
  | .bytes _, .seq _ => .isFalse (by intro hc; cases hc)
  | .bytes _, .union _ _ => .isFalse (by intro hc; cases hc)
  | .union _ _, .uint _ _ => .isFalse (by intro hc; cases hc)
  | .union _ _, .compact _ => .isFalse (by intro hc; cases hc)
  | .union _ _, .seq _ => .isFalse (by intro hc; cases hc)
  | .union _ _, .bytes _ => .isFalse (by intro hc; cases hc)
def decEqValueList : (a b : ValueList) → Decidable (a = b)
  | .nil, .nil => .isTrue rfl
  | .nil, .cons _ _ => .isFalse (by intro hc; cases hc)
  | .cons _ _, .nil => .isFalse (by intro hc; cases hc)
  | .cons v vs, .cons v2 vs2 =>
    match decEqValue v v2 with
    | .isTrue h =>
      match decEqValueList vs vs2 with
      | .isTrue h2 => .isTrue (by rw [h, h2])
      | .isFalse h2 => .isFalse (by intro hc; cases hc; exact h2 rfl)
    | .isFalse h => .isFalse (by intro hc; cases hc; exact h rfl)
end

instance : DecidableEq Value := decEqValue

instance : DecidableEq ValueList := decEqValueList

/-- Number of elements of a sequence value. -/
def ValueList.length : ValueList → Nat
  | .nil => 0
  | .cons _ tl => tl.length + 1

mutual
/-- Modelled from the spec: `encode(value) -> bytes`, deterministic and total
for all supported shapes. -/
def encode : Value → List Nat
  | .uint w v => toLE w v
  | .compact v => encodeCompact v
  | .seq vs => encodeCompact vs.length ++ encodeList vs
  | .bytes bs => bs
  | .union tag p => tag :: encode p
/-- Concatenated encodings of the elements of a sequence. -/
def encodeList : ValueList → List Nat
  | .nil => []
  | .cons v vs => encode v ++ encodeList vs
end

mutual
/-- Modelled from the spec: a value is representable at a type descriptor.
Fixed-width values fit their width, compact values fit the largest compact
mode (67 payload bytes), byte arrays have the declared size and byte-range
entries, and a union discriminant is a single byte selecting an existing
variant. -/
def hasType : Value → TypeDesc → Bool
  | .uint w v, .uint w2 => decide (w = w2) && decide (v < 256 ^ w)
  | .compact v, .compact => decide (v < 256 ^ 67)
  | .seq vs, .seq t => decide (vs.length < 256 ^ 67) && hasTypeList vs t
  | .bytes bs, .bytes n => decide (bs.length = n) && bs.all (fun b => decide (b < 256))
  | .union tag p, .union ts =>
    decide (tag < 256) &&
      (match ts[tag]? with
       | some t => hasType p t
       | none => false)
  | _, _ => false
/-- Every element of the list is representable at the element descriptor. -/
def hasTypeList : ValueList → TypeDesc → Bool
  | .nil, _ => true
  | .cons v vs, t => hasType v t && hasTypeList vs t
end

mutual
/-- Modelled from the spec: `decode(bytes, type-descriptor) ->
(value, remaining-bytes)`, failing with a `DecodeError` when the input is
truncated or a discriminant is out of range. -/
def decode : TypeDesc → List Nat → Except DecodeError (Value × List Nat)
  | .uint w, bs =>
    match takeBytes w bs with
    | .ok (chunk, rest) => .ok (.uint w (fromLE chunk), rest)
    | .error e => .error e
  | .compact, bs =>
    match decodeCompact bs with
    | .ok (v, rest) => .ok (.compact v, rest)
    | .error e => .error e
  | .seq t, bs =>
    match decodeCompact bs with
    | .ok (n, bs2) =>
      match decodeMany t n bs2 with
      | .ok (vs, rest) => .ok (.seq vs, rest)
      | .error e => .error e
    | .error e => .error e
  | .bytes n, bs =>
    match takeBytes n bs with
    | .ok (chunk, rest) => .ok (.bytes chunk, rest)
    | .error e => .error e
  | .union _, [] => .error .unexpectedEof
  | .union ts, b :: bs =>
    match _h : ts[b]? with
    | some t =>
      match decode t bs with
      | .ok (v, rest) => .ok (.union b v, rest)
      | .error e => .error e
    | none => .error (.badDiscriminant b)
termination_by t _ => (sizeOf t, 0)
decreasing_by
  · apply Prod.Lex.left
    simp
  · apply Prod.Lex.left
    have hmem : t ∈ ts := by
      have h2 := List.getElem?_eq_some_iff.mp _h
      obtain ⟨hb, he⟩ := h2
      exact he ▸ List.getElem_mem hb
    have h3 := List.sizeOf_lt_of_mem hmem
    simp
    omega
/-- Decode `n` consecutive values of the element descriptor. -/
def decodeMany : TypeDesc → Nat → List Nat → Except DecodeError (ValueList × List Nat)
  | _, 0, bs => .ok (.nil, bs)
  | t, n + 1, bs =>
    match decode t bs with
    | .ok (v, bs2) =>
      match decodeMany t n bs2 with
      | .ok (vs, rest) => .ok (.cons v vs, rest)
      | .error e => .error e
    | .error e => .error e
termination_by t n _ => (sizeOf t, n + 1)
decreasing_by
  · apply Prod.Lex.right
    omega
  · apply Prod.Lex.right
    omega
end

mutual
theorem decode_encode : ∀ (v : Value) (t : TypeDesc), hasType v t = true →
    ∀ rest, decode t (encode v ++ rest) = .ok (v, rest)
  | .uint w v, t, h, rest => by
    cases t <;> simp [hasType] at h
    obtain ⟨hw, hv⟩ := h
    subst hw
    simp only [encode, decode, takeBytes_toLE]
    simp [fromLE_toLE w v hv]
  | .compact v, t, h, rest => by
    cases t <;> simp [hasType] at h
    simp [encode, decode, decodeCompact_encodeCompact]
  | .seq vs, t, h, rest => by
    cases t <;> simp [hasType] at h
    case seq te =>
      obtain ⟨_hlen, hlist⟩ := h
      simp only [encode, decode, List.append_assoc, decodeCompact_encodeCompact,
        decodeMany_encodeList vs te hlist]
  | .bytes bs, t, h, rest => by
    cases t <;> simp [hasType] at h
    case bytes n =>
      obtain ⟨hlen, _hall⟩ := h
      subst hlen
      simp only [encode, decode, takeBytes_append]
  | .union tag p, t, h, rest => by
    cases t <;> simp [hasType] at h
    case union ts =>
      obtain ⟨_htag, hmatch⟩ := h
      cases hts : ts[tag]? with
      | none => rw [hts] at hmatch; simp at hmatch
      | some tv =>
        rw [hts] at hmatch
        simp only [encode, List.cons_append, decode]
        split
        · next t2 heq =>
          rw [hts] at heq
          injection heq with heq2
          subst heq2
          simp only [decode_encode p tv hmatch rest]
        · next heq => rw [hts] at heq; cases heq
theorem decodeMany_encodeList : ∀ (vs : ValueList) (t : TypeDesc), hasTypeList vs t = true →
    ∀ rest, decodeMany t vs.length (encodeList vs ++ rest) = .ok (vs, rest)
  | .nil, t, _, rest => by simp [ValueList.length, encodeList, decodeMany]
  | .cons v vs, t, h, rest => by
    simp [hasTypeList] at h
    obtain ⟨hv, hvs⟩ := h
    simp only [ValueList.length, encodeList, List.append_assoc, decodeMany,
      decode_encode v t hv, decodeMany_encodeList vs t hvs]
end

theorem append_split {α : Type} : ∀ (A B p q : List α), A ++ B = p ++ q →
    (∃ r, p = A ++ r ∧ B = r ++ q) ∨ (∃ r, A = p ++ r ∧ q = r ++ B) := by
  intro A
  induction A with
  | nil =>
    intro B p q h
    left
    exact ⟨p, by simp, by simpa using h⟩
  | cons a A ih =>
    intro B p q h
    cases p with
    | nil =>
      right
      exact ⟨a :: A, by simp, by simpa using h.symm⟩
    | cons x p2 =>
      simp at h
      obtain ⟨hax, h2⟩ := h
      rcases ih B p2 q h2 with ⟨r, hr1, hr2⟩ | ⟨r, hr1, hr2⟩
      · left; exact ⟨r, by simp [hax, hr1], hr2⟩
      · right; exact ⟨r, by simp [hax, hr1], hr2⟩

theorem decodeCompact_trunc (v : Nat) : ∀ p q, encodeCompact v = p ++ q → q ≠ [] →
    decodeCompact p = .error .unexpectedEof := by
  intro p q henc hq
  unfold encodeCompact at henc
  split at henc
  · cases p with
    | nil => rfl
    | cons a p2 =>
      simp at henc
      obtain ⟨-, h2, h3⟩ := henc
      exact absurd h3 hq
  · split at henc
    · next h1 h2 =>
      have hm : (4 * v + 1) % 256 % 4 = 1 := by
        rw [Nat.mod_mod_of_dvd _ (by norm_num)]
        omega
      simp [toLE] at henc
      cases p with
      | nil => rfl
      | cons a p2 =>
        cases p2 with
        | nil =>
          simp at henc
          obtain ⟨ha, -⟩ := henc
          subst ha
          simp [decodeCompact, hm]
        | cons b p3 =>
          simp at henc
          obtain ⟨-, -, h3, h4⟩ := henc
          exact absurd h4 hq
    · split at henc
      · next h1 h2 h3 =>
        have hm : (4 * v + 2) % 256 % 4 = 2 := by
          rw [Nat.mod_mod_of_dvd _ (by norm_num)]
          omega
        simp [toLE] at henc
        cases p with
        | nil => rfl
        | cons a p2 =>
          cases p2 with
          | nil =>
            simp at henc
            obtain ⟨ha, -⟩ := henc
            subst ha
            simp [decodeCompact, hm]
          | cons b p3 =>
            cases p3 with
            | nil =>
              simp at henc
              obtain ⟨ha, -⟩ := henc
              subst ha
              simp [decodeCompact, hm]
            | cons c p4 =>
              cases p4 with
              | nil =>
                simp at henc
                obtain ⟨ha, -⟩ := henc
                subst ha
                simp [decodeCompact, hm]
              | cons d p5 =>
                simp at henc
                obtain ⟨-, -, -, -, -, h5⟩ := henc
                exact absurd h5 hq
      · next h1 h2 h3 =>
        have h4 : 4 ≤ bytesNeeded v := bytesNeeded_ge_four v (by omega)
        have hm : (4 * (bytesNeeded v - 4) + 3) % 4 = 3 := by omega
        cases p with
        | nil => rfl
        | cons a p2 =>
          simp at henc
          obtain ⟨ha, htail⟩ := henc
          subst ha
          have hqlen : 0 < q.length := by
            cases q
            · exact absurd rfl hq
            · simp
          have hplen : p2.length < bytesNeeded v := by
            have hl : (p2 ++ q).length = bytesNeeded v := by
              rw [← htail, toLE_length]
            simp at hl
            omega
          simp only [decodeCompact]
          norm_num [hm]
          have hdiv : (4 * (bytesNeeded v - 4) + 3) / 4 + 4 = bytesNeeded v := by omega
          rw [hdiv, takeBytes_short _ p2 hplen]

mutual
theorem decode_trunc : ∀ (v : Value) (t : TypeDesc), hasType v t = true →
    ∀ p q, encode v = p ++ q → q ≠ [] → ∃ e, decode t p = .error e
  | .uint w v, t, h, p, q, henc, hq => by
    cases t <;> simp [hasType] at h
    obtain ⟨hw, _hv⟩ := h
    subst hw
    simp only [encode] at henc
    have hqlen : 0 < q.length := by
      cases q
      · exact absurd rfl hq
      · simp
    have hplen : p.length < w := by
      have hl : (p ++ q).length = w := by rw [← henc, toLE_length]
      simp at hl
      omega
    exact ⟨.unexpectedEof, by simp [decode, takeBytes_short w p hplen]⟩
  | .compact v, t, h, p, q, henc, hq => by
    cases t <;> simp [hasType] at h
    simp only [encode] at henc
    exact ⟨.unexpectedEof, by simp [decode, decodeCompact_trunc v p q henc hq]⟩
  | .seq vs, t, h, p, q, henc, hq => by
    cases t <;> simp [hasType] at h
    case seq te =>
      obtain ⟨-, hlist⟩ := h
      simp only [encode] at henc
      rcases append_split _ _ p q henc with ⟨r, hp, hB⟩ | ⟨r, hA, hqeq⟩
      · obtain ⟨e, he⟩ := decodeMany_trunc vs te hlist r q hB hq
        exact ⟨e, by simp [decode, hp, decodeCompact_encodeCompact, he]⟩
      · cases r with
        | nil =>
          have hdecc : decodeCompact p = .ok (vs.length, []) := by
            have h3 := decodeCompact_encodeCompact vs.length []
            rw [List.append_nil] at h3
            rw [show p = encodeCompact vs.length by simpa using hA.symm]
            exact h3
          have hB2 : encodeList vs = [] ++ q := by simpa using hqeq.symm
          obtain ⟨e, he⟩ := decodeMany_trunc vs te hlist [] q hB2 hq
          exact ⟨e, by simp [decode, hdecc, he]⟩
        | cons r0 rr =>
          have hdecc := decodeCompact_trunc vs.length p (r0 :: rr) hA (by simp)
          exact ⟨.unexpectedEof, by simp [decode, hdecc]⟩
  | .bytes bs, t, h, p, q, henc, hq => by
    cases t <;> simp [hasType] at h
    case bytes n =>
      obtain ⟨hlen, -⟩ := h
      simp only [encode] at henc
      have hqlen : 0 < q.length := by
        cases q
        · exact absurd rfl hq
        · simp
      have hplen : p.length < n := by
        have hl : (p ++ q).length = n := by rw [← henc, hlen]
        simp at hl
        omega
      exact ⟨.unexpectedEof, by simp [decode, takeBytes_short n p hplen]⟩
  | .union tag pay, t, h, p, q, henc, hq => by
    cases t <;> simp [hasType] at h
    case union ts =>
      obtain ⟨-, hmatch⟩ := h
      cases hts : ts[tag]? with
      | none => rw [hts] at hmatch; simp at hmatch
      | some tv =>
        rw [hts] at hmatch
        simp only [encode] at henc
        cases p with
        | nil => exact ⟨.unexpectedEof, by simp [decode]⟩
        | cons a p2 =>
          simp at henc
          obtain ⟨ha, h2⟩ := henc
          subst ha
          obtain ⟨e, he⟩ := decode_trunc pay tv hmatch p2 q h2 hq
          refine ⟨e, ?_⟩
          simp only [decode]
          split
          · next t2 heq =>
            rw [hts] at heq
            injection heq with heq2
            subst heq2
            simp [he]
          · next heq => rw [hts] at heq; cases heq
theorem decodeMany_trunc : ∀ (vs : ValueList) (t : TypeDesc), hasTypeList vs t = true →
    ∀ p q, encodeList vs = p ++ q → q ≠ [] → ∃ e, decodeMany t vs.length p = .error e
  | .nil, t, _, p, q, henc, hq => by
    simp only [encodeList] at henc
    rcases List.append_eq_nil.mp henc.symm with ⟨-, h2⟩
    exact absurd h2 hq
  | .cons v vs, t, h, p, q, henc, hq => by
    simp [hasTypeList] at h
    obtain ⟨hv, hvs⟩ := h
    simp only [encodeList] at henc
    rcases append_split _ _ p q henc with ⟨r, hp, hB⟩ | ⟨r, hA, hqeq⟩
    · obtain ⟨e, he⟩ := decodeMany_trunc vs t hvs r q hB hq
      exact ⟨e, by simp [ValueList.length, decodeMany, hp, decode_encode v t hv, he]⟩
    · cases r with
      | nil =>
        have hdec : decode t p = .ok (v, []) := by
          have h3 := decode_encode v t hv []
          rw [List.append_nil] at h3
          rw [show p = encode v by simpa using hA.symm]
          exact h3
        have hB2 : encodeList vs = [] ++ q := by simpa using hqeq.symm
        obtain ⟨e, he⟩ := decodeMany_trunc vs t hvs [] q hB2 hq
        exact ⟨e, by simp [ValueList.length, decodeMany, hdec, he]⟩
      | cons r0 rr =>
        obtain ⟨e, he⟩ := decode_trunc v t hv p (r0 :: rr) hA (by simp)
        exact ⟨e, by simp [ValueList.length, decodeMany, he]⟩
end

theorem decode_badDiscriminant (ts : List TypeDesc) (b : Nat) (bs : List Nat)
    (h : ts.length ≤ b) : decode (.union ts) (b :: bs) = .error (.badDiscriminant b) := by
  have hnone : ts[b]? = none := by
    simp [List.getElem?_eq_none_iff]
    omega
  simp only [decode]
  split
  · next t2 heq => rw [hnone] at heq; cases heq
  · rfl

/-! ## Metadata store (Modelled from the spec, §4.2: `Metadata`,
`Metadata::pallet` and `PalletMetadata::encode_call` are used by
`client.rs` but their source is not part of the excerpt). -/

/-- Modelled from the spec: errors of the metadata store. -/
inductive MetadataError where
  | PalletNotFound
  | CallNotFound
  | ArgumentTypeMismatch
deriving DecidableEq

/-- Modelled from the spec: one call variant of a pallet — its name and the
argument type descriptors, listed in declaration order (its call index is
its position in the pallet's call list). -/
structure PalletCallMeta where
  name : String
  args : List TypeDesc
deriving DecidableEq

/-- Modelled from the spec: one pallet — name, index (u8), call variants in
index order and error-variant names in index order. -/
structure PalletMetadata where
  name : String
  index : Nat
  calls : List PalletCallMeta
  errors : List String
deriving DecidableEq

/-- Modelled from the spec: the parsed runtime metadata — an ordered
collection of pallets. -/
structure Metadata where
  pallets : List PalletMetadata
deriving DecidableEq

/-- Modelled from the spec: look a pallet up by name, failing with
`PalletNotFound` when it is absent. -/
def Metadata.pallet (m : Metadata) (name : String) : Except MetadataError PalletMetadata :=
  match m.pallets.find? (fun p => p.name == name) with
  | some p => .ok p
  | none => .error .PalletNotFound

/-- A dynamic call value: pallet name, call-variant name and argument values. -/
structure Call where
  pallet : String
  function : String
  args : ValueList
deriving DecidableEq

/-- Find a call variant by name together with its index (position). -/
def findCall : List PalletCallMeta → String → Nat → Option (Nat × PalletCallMeta)
  | [], _, _ => none
  | cm :: cms, n, i => if cm.name = n then some (i, cm) else findCall cms n (i + 1)

/-- Encode argument values positionally against their declared type
descriptors, failing with `ArgumentTypeMismatch` on a shape mismatch. -/
def encodeArgs : ValueList → List TypeDesc → Except MetadataError (List Nat)
  | .nil, [] => .ok []
  | .cons v vs, t :: ts =>
    if hasType v t then
      match encodeArgs vs ts with
      | .ok bs => .ok (encode v ++ bs)
      | .error e => .error e
    else .error .ArgumentTypeMismatch
  | _, _ => .error .ArgumentTypeMismatch

/-- Modelled from the spec: `resolve_call` — look up the call's index and
argument descriptors, encode each argument positionally and prefix with
(pallet-index, call-index); fails with `CallNotFound` when the variant is
absent. -/
def PalletMetadata.encode_call (p : PalletMetadata) (c : Call) : Except MetadataError (List Nat) :=
  match findCall p.calls c.function 0 with
  | some (ci, cm) =>
    match encodeArgs c.args cm.args with
    | .ok bs => .ok (p.index :: ci :: bs)
    | .error e => .error e
  | none => .error .CallNotFound

/-- Modelled from the spec: `resolve_error(pallet_index, error_index)`,
used only for diagnostic surfacing; absence is not fatal. -/
def Metadata.resolve_error (m : Metadata) (pi2 ei : Nat) : Option (String × String) :=
  match m.pallets.find? (fun p => p.index == pi2) with
  | some p =>
    match p.errors[ei]? with
    | some en => some (p.name, en)
    | none => none
  | none => none

/-! ## Transaction status and errors -/

/-- Modelled from the spec: the transaction lifecycle statuses reported by
the node (§4.5). -/
inductive TxStatus (H : Type) where
  | future
  | ready
  | broadcast
  | inBlock (block_hash : H)
  | finalized (block_hash : H)
  | usurped (new_hash : H)
  | dropped
  | invalid
deriving DecidableEq

/-- Modelled from the spec: the error taxonomy (§7); `error.rs` is not part
of the excerpt.  `transactionFailed` carries the reported terminal status,
`moduleError` a module-level failure with its metadata resolution. -/
inductive BasicError (H : Type) where
  | connection
  | rpcError (code : Nat)
  | decodeError (e : DecodeError)
  | metadataError (e : MetadataError)
  | signing
  | transactionFailed (status : TxStatus H)
  | moduleError (palletIndex errorIndex : Nat) (resolved : Option (String × String))
deriving DecidableEq

/-- Modelled from the spec: a decoded event of the block's event log —
either a module-level failure event or an ordinary event. -/
inductive RawEvent where
  | moduleError (palletIndex errorIndex : Nat)
  | ordinary (data : Nat)
deriving DecidableEq

/-- First module-level failure event of an event list, if any. -/
def firstModuleError : List RawEvent → Option (Nat × Nat)
  | [] => none
  | .moduleError pi2 ei :: _ => some (pi2, ei)
  | .ordinary _ :: es => firstModuleError es

/-- Modelled from the spec: inspect a block's decoded events for a
module-level failure; on failure resolve (pallet, error-name) through the
metadata, else succeed with the event list. -/
def inspectEvents {H : Type} (m : Metadata) (evs : List RawEvent) :
    Except (BasicError H) (List RawEvent) :=
  match firstModuleError evs with
  | some (pi2, ei) => .error (.moduleError pi2 ei (m.resolve_error pi2 ei))
  | none => .ok evs

/-! ## Transaction progress tracker (Modelled from the spec, §4.5:
`TransactionProgress` is used by `client.rs` but `transaction.rs` is not
part of the excerpt).  The status subscription is modelled as the list of
statuses delivered before the subscription ended; a stream that ends
without a resolving status models a connection loss (the spec says a
subscription ends only on explicit unsubscribe or connection loss). -/

/-- Modelled from the spec: the transaction progress tracker returned by
`sign_and_submit_then_watch` — the status subscription it consumes and the
extrinsic's pre-inclusion hash it is keyed by.  (The client reference held
by the Rust struct is only used to fetch and decode block events; event
fetching is passed to the wait operations as an oracle here.) -/
structure TransactionProgress (H : Type) where
  sub : List (TxStatus H)
  ext_hash : H
deriving DecidableEq

/-- Modelled from the spec: `wait_for_in_block` over the remaining stream —
resolve on the first `InBlock` with that block's inspected events, end with
`TransactionFailed` on a terminal failure, consume every other status, and
report a connection loss if the stream ends unresolved. -/
def wait_for_in_block_from {H : Type} (m : Metadata) (getEvents : H → List RawEvent) :
    List (TxStatus H) → Except (BasicError H) (List RawEvent)
  | [] => .error .connection
  | .inBlock h :: _ => inspectEvents m (getEvents h)
  | .dropped :: _ => .error (.transactionFailed .dropped)
  | .invalid :: _ => .error (.transactionFailed .invalid)
  | .usurped nh :: _ => .error (.transactionFailed (.usurped nh))
  | _ :: rest => wait_for_in_block_from m getEvents rest

/-- Modelled from the spec: `wait_for_finalized` over the remaining stream —
same decode/inspect logic but only resolves on `Finalized`, consuming
intervening non-terminal and superseded `InBlock` statuses. -/
def wait_for_finalized_from {H : Type} (m : Metadata) (getEvents : H → List RawEvent) :
    List (TxStatus H) → Except (BasicError H) (List RawEvent)
  | [] => .error .connection
  | .finalized h :: _ => inspectEvents m (getEvents h)
  | .dropped :: _ => .error (.transactionFailed .dropped)
  | .invalid :: _ => .error (.transactionFailed .invalid)
  | .usurped nh :: _ => .error (.transactionFailed (.usurped nh))
  | _ :: rest => wait_for_finalized_from m getEvents rest

/-- Modelled from the spec: `wait_for_in_block` of the tracker. -/
def TransactionProgress.wait_for_in_block {H : Type} (tp : TransactionProgress H)
    (m : Metadata) (getEvents : H → List RawEvent) : Except (BasicError H) (List RawEvent) :=
  wait_for_in_block_from m getEvents tp.sub

/-- Modelled from the spec: `wait_for_finalized` of the tracker. -/
def TransactionProgress.wait_for_finalized {H : Type} (tp : TransactionProgress H)
    (m : Metadata) (getEvents : H → List RawEvent) : Except (BasicError H) (List RawEvent) :=
  wait_for_finalized_from m getEvents tp.sub

/-- A status at which `wait_for_finalized` does not resolve
(`Future`/`Ready`/`Broadcast`/`InBlock`). -/
def nonResolvingForFinalized {H : Type} : TxStatus H → Bool
  | .finalized _ => false
  | .dropped => false
  | .invalid => false
  | .usurped _ => false
  | _ => true

/-- A status at which `wait_for_in_block` resolves. -/
def resolvesForInBlock {H : Type} : TxStatus H → Bool
  | .inBlock _ => true
  | .dropped => true
  | .invalid => true
  | .usurped _ => true
  | _ => false

/-- A status at which `wait_for_finalized` resolves. -/
def resolvesForFinalized {H : Type} : TxStatus H → Bool
  | .finalized _ => true
  | .dropped => true
  | .invalid => true
  | .usurped _ => true
  | _ => false

/-- Terminal failure statuses (`Dropped`/`Invalid`/`Usurped`). -/
def isTerminalFailure {H : Type} : TxStatus H → Bool
  | .dropped => true
  | .invalid => true
  | .usurped _ => true
  | _ => false

/-! ## Client layer (embedded from `src/subxt/src/client.rs`).  Type
parameters play the role of the `Config` associated types: `H` is
`T::Hash`, `A` the signer's account id, `Sig` the signature type and `P`
the additional signed parameters `X::Parameters`.  `T::Hashing::hash_of`
is carried by the `Client` as the pure function `hashing`. -/

/-- Runtime version facts fetched at connection build (spec §3: carries a
transaction-version number besides the spec version). -/
structure RuntimeVersion where
  spec_version : Nat
  transaction_version : Nat
deriving DecidableEq

/-- Chain-spec properties as an opaque JSON-like object; `Default` is the
empty object. -/
structure SystemProperties where
  fields : List (String × String)
deriving DecidableEq

instance : Inhabited SystemProperties := ⟨⟨[]⟩⟩

/-- Modelled from the spec: the signing material passed to the signer by
`extrinsic::create_signed` (§4.4) — runtime version, genesis hash, account
nonce, encoded call bytes and the additional signed parameters. -/
structure SignedPayload (H P : Type) where
  runtime_version : RuntimeVersion
  genesis_hash : H
  nonce : Nat
  call : List Nat
  additional_params : P
deriving DecidableEq

/-- Modelled from the spec: the signed extrinsic envelope (§3) — signature
block (account id, signature, signed extra: nonce and additional
parameters) plus the encoded call bytes. -/
structure UncheckedExtrinsic (A Sig P : Type) where
  account_id : A
  signature : Sig
  nonce : Nat
  additional_params : P
  call : List Nat
deriving DecidableEq

/-- A signer: account id, an optional explicit nonce, and a signing
function which may refuse (`none` models a rejected payload). -/
structure Signer (H A Sig P : Type) where
  account_id : A
  nonce : Option Nat
  sign : SignedPayload H P → Option Sig

/-- One RPC interaction performed by the client, recorded in traces. -/
inductive RpcCall (H A Sig P : Type) where
  | nextIndex (account : A)
  | submit (extrinsic : UncheckedExtrinsic A Sig P)
  | watch (extrinsic : UncheckedExtrinsic A Sig P)
deriving DecidableEq

/-- The RPC layer as a pure oracle: each operation of `Rpc` used by
`client.rs` maps its request to the result the node would deliver
(`watch_extrinsic` delivers the status subscription's contents). -/
structure Rpc (H A Sig P : Type) where
  system_account_next_index : A → Except (BasicError H) Nat
  submit_extrinsic : UncheckedExtrinsic A Sig P → Except (BasicError H) H
  watch_extrinsic : UncheckedExtrinsic A Sig P → Except (BasicError H) (List (TxStatus H))

/-- The `Client` struct of `client.rs`: rpc handle, genesis hash, metadata,
properties, runtime version and storage-iteration page size, plus the
`Config`-level hash function. -/
structure Client (H A Sig P : Type) where
  rpc : Rpc H A Sig P
  genesis_hash : H
  metadata : Metadata
  properties : SystemProperties
  runtime_version : RuntimeVersion
  iter_page_size : Nat
  hashing : UncheckedExtrinsic A Sig P → H

/-- The `ClientBuilder` struct of `client.rs`: optional url, optional
pre-supplied rpc client handle, optional page size. -/
structure ClientBuilder (RC : Type) where
  url : Option String
  client : Option RC
  page_size : Option Nat

/-- The results of the four connection-time fetches joined by
`future::join4` in `ClientBuilder::build`: all four fetches are performed
regardless of each other's outcome, and their results are examined only
after all have completed. -/
structure FetchResults (H : Type) where
  metadata : Except (BasicError H) Metadata
  genesis_hash : Except (BasicError H) H
  runtime_version : Except (BasicError H) RuntimeVersion
  properties : Except (BasicError H) SystemProperties

/-- The transport-selection step of `ClientBuilder::build`: a pre-supplied
client handle is used as is; otherwise a websocket connection is made to
the configured url, defaulting to `ws://127.0.0.1:9944`. -/
def ClientBuilder.resolveRpcClient {RC H : Type} (b : ClientBuilder RC)
    (ws_client : String → Except (BasicError H) RC) : Except (BasicError H) RC :=
  match b.client with
  | some client => .ok client
  | none => ws_client (b.url.getD "ws://127.0.0.1:9944")

/-- The result-assembly step of `ClientBuilder::build`, examining the four
joined fetch results in the order the source does: the metadata result
first, then (in field order of the struct literal) the genesis hash, the
properties — a failed properties fetch degrading to the default value —
and the runtime version; the page size defaults to 10. -/
def ClientBuilder.buildFrom {H A Sig P : Type} (rpc : Rpc H A Sig P)
    (hashing : UncheckedExtrinsic A Sig P → H) (f : FetchResults H)
    (page_size : Option Nat) : Except (BasicError H) (Client H A Sig P) :=
  match f.metadata with
  | .error e => .error e
  | .ok metadata =>
    match f.genesis_hash with
    | .error e => .error e
    | .ok genesis_hash =>
      let properties := match f.properties with
        | .ok props => props
        | .error _ => default
      match f.runtime_version with
      | .error e => .error e
      | .ok runtime_version =>
        .ok { rpc := rpc, genesis_hash := genesis_hash, metadata := metadata,
              properties := properties, runtime_version := runtime_version,
              iter_page_size := page_size.getD 10, hashing := hashing }

/-- `ClientBuilder::build`: select the transport (pre-supplied handle or
websocket to the configured/default url), perform the four connection-time
fetches concurrently (`rpcOf` and `fetchOf` give the rpc handle and the
joined fetch results the chosen transport would deliver), and assemble the
client. -/
def ClientBuilder.build {RC H A Sig P : Type} (b : ClientBuilder RC)
    (ws_client : String → Except (BasicError H) RC)
    (rpcOf : RC → Rpc H A Sig P) (hashing : UncheckedExtrinsic A Sig P → H)
    (fetchOf : RC → FetchResults H) : Except (BasicError H) (Client H A Sig P) :=
  match b.resolveRpcClient ws_client with
  | .error e => .error e
  | .ok client => ClientBuilder.buildFrom (rpcOf client) hashing (fetchOf client) b.page_size

/-- Modelled from the spec: `extrinsic::create_signed` (§4.4) — build the
signing payload from the connection facts, nonce, call bytes and
additional parameters and ask the signer for a signature; fails with
`SigningError` if the signer refuses, never substituting a default
signature. -/
def extrinsicCreateSigned {H A Sig P : Type} (runtime_version : RuntimeVersion)
    (genesis_hash : H) (account_nonce : Nat) (call : List Nat)
    (signer : Signer H A Sig P) (additional_params : P) :
    Except (BasicError H) (UncheckedExtrinsic A Sig P) :=
  match signer.sign { runtime_version := runtime_version, genesis_hash := genesis_hash,
                      nonce := account_nonce, call := call,
                      additional_params := additional_params } with
  | some sig => .ok { account_id := signer.account_id, signature := sig,
                      nonce := account_nonce, additional_params := additional_params,
                      call := call }
  | none => .error .signing

/-- The `SubmittableExtrinsic` struct of `client.rs`: a client reference and
a call value ready to be signed and submitted. -/
structure SubmittableExtrinsic (H A Sig P : Type) where
  client : Client H A Sig P
  call : Call

/-- `SubmittableExtrinsic::create_signed`: resolve the account nonce (the
signer's explicit nonce if supplied, else one `system_account_next_index`
lookup for the signer's account), encode the call against the client's
metadata, and sign.  Besides the result, the trace of RPC calls performed
is returned. -/
def SubmittableExtrinsic.create_signed {H A Sig P : Type}
    (self : SubmittableExtrinsic H A Sig P) (signer : Signer H A Sig P)
    (additional_params : P) :
    Except (BasicError H) (UncheckedExtrinsic A Sig P) × List (RpcCall H A Sig P) :=
  let nonceStep : Except (BasicError H) Nat × List (RpcCall H A Sig P) :=
    match signer.nonce with
    | some nonce => (.ok nonce, [])
    | none => (self.client.rpc.system_account_next_index signer.account_id,
               [.nextIndex signer.account_id])
  match nonceStep with
  | (.error e, tr) => (.error e, tr)
  | (.ok account_nonce, tr) =>
    match (self.client.metadata.pallet self.call.pallet).bind
        (fun pallet => pallet.encode_call self.call) with
    | .error e => (.error (.metadataError e), tr)
    | .ok call =>
      (extrinsicCreateSigned self.client.runtime_version self.client.genesis_hash
        account_nonce call signer additional_params, tr)

/-- `SubmittableExtrinsic::sign_and_submit_with_aditional_then_watch`
(source spelling kept): sign with the given additional parameters, hash
the signed extrinsic, submit-and-watch, and return the tracker bound to
the subscription and keyed by that hash. -/
def SubmittableExtrinsic.sign_and_submit_with_aditional_then_watch {H A Sig P : Type}
    (self : SubmittableExtrinsic H A Sig P) (signer : Signer H A Sig P)
    (additional_params : P) :
    Except (BasicError H) (TransactionProgress H) × List (RpcCall H A Sig P) :=
  match self.create_signed signer additional_params with
  | (.error e, tr) => (.error e, tr)
  | (.ok extrinsic, tr) =>
    let ext_hash := self.client.hashing extrinsic
    match self.client.rpc.watch_extrinsic extrinsic with
    | .error e => (.error e, tr ++ [.watch extrinsic])
    | .ok sub => (.ok { sub := sub, ext_hash := ext_hash }, tr ++ [.watch extrinsic])

/-- `SubmittableExtrinsic::sign_and_submit_then_watch`: sign with the
default additional parameters, hash the signed extrinsic, submit-and-watch,
and return the tracker bound to the subscription and keyed by that hash. -/
def SubmittableExtrinsic.sign_and_submit_then_watch {H A Sig P : Type} [Inhabited P]
    (self : SubmittableExtrinsic H A Sig P) (signer : Signer H A Sig P) :
    Except (BasicError H) (TransactionProgress H) × List (RpcCall H A Sig P) :=
  match self.create_signed signer default with
  | (.error e, tr) => (.error e, tr)
  | (.ok extrinsic, tr) =>
    let ext_hash := self.client.hashing extrinsic
    match self.client.rpc.watch_extrinsic extrinsic with
    | .error e => (.error e, tr ++ [.watch extrinsic])
    | .ok sub => (.ok { sub := sub, ext_hash := ext_hash }, tr ++ [.watch extrinsic])

/-- `SubmittableExtrinsic::sign_and_submit_with_additional`: sign with the
given additional parameters and submit fire-and-forget, returning the
node-assigned hash. -/
def SubmittableExtrinsic.sign_and_submit_with_additional {H A Sig P : Type}
    (self : SubmittableExtrinsic H A Sig P) (signer : Signer H A Sig P)
    (additional_params : P) :
    Except (BasicError H) H × List (RpcCall H A Sig P) :=
  match self.create_signed signer additional_params with
  | (.error e, tr) => (.error e, tr)
  | (.ok extrinsic, tr) =>
    match self.client.rpc.submit_extrinsic extrinsic with
    | .error e => (.error e, tr ++ [.submit extrinsic])
    | .ok h => (.ok h, tr ++ [.submit extrinsic])

/-- `SubmittableExtrinsic::sign_and_submit`: fire-and-forget submission with
the default additional parameters, delegating to
`sign_and_submit_with_additional`. -/
def SubmittableExtrinsic.sign_and_submit {H A Sig P : Type} [Inhabited P]
    (self : SubmittableExtrinsic H A Sig P) (signer : Signer H A Sig P) :
    Except (BasicError H) H × List (RpcCall H A Sig P) :=
  self.sign_and_submit_with_additional signer default

/-! ## Tracker lemmas and claims -/

instance {ε α : Type} [DecidableEq ε] [DecidableEq α] : DecidableEq (Except ε α) := fun x y =>
  match x, y with
  | .ok a, .ok b =>
    if h : a = b then .isTrue (by rw [h]) else
      .isFalse (by intro hc; cases hc; exact h rfl)
  | .error a, .error b =>
    if h : a = b then .isTrue (by rw [h]) else
      .isFalse (by intro hc; cases hc; exact h rfl)
  | .ok _, .error _ => .isFalse (by intro hc; cases hc)
  | .error _, .ok _ => .isFalse (by intro hc; cases hc)

theorem wait_in_block_from_nonresolving {H : Type} (m : Metadata) (ev : H → List RawEvent) :
    ∀ l : List (TxStatus H), (∀ s ∈ l, resolvesForInBlock s = false) →
      wait_for_in_block_from m ev l = .error .connection := by
  intro l
  induction l with
  | nil => intro _; rfl
  | cons s rest ih =>
    intro h
    have hs := h s (by simp)
    have hrest := ih (fun x hx => h x (List.mem_cons_of_mem s hx))
    cases s <;> simp_all [resolvesForInBlock, wait_for_in_block_from]

theorem wait_finalized_from_nonresolving {H : Type} (m : Metadata) (ev : H → List RawEvent) :
    ∀ l : List (TxStatus H), (∀ s ∈ l, resolvesForFinalized s = false) →
      wait_for_finalized_from m ev l = .error .connection := by
  intro l
  induction l with
  | nil => intro _; rfl
  | cons s rest ih =>
    intro h
    have hs := h s (by simp)
    have hrest := ih (fun x hx => h x (List.mem_cons_of_mem s hx))
    cases s <;> simp_all [resolvesForFinalized, wait_for_finalized_from]

theorem wait_in_block_from_terminal {H : Type} (m : Metadata) (ev : H → List RawEvent) :
    ∀ (pre : List (TxStatus H)) (t : TxStatus H), isTerminalFailure t = true →
      (∀ s ∈ pre, resolvesForInBlock s = false) →
      wait_for_in_block_from m ev (pre ++ [t]) = .error (.transactionFailed t) := by
  intro pre
  induction pre with
  | nil =>
    intro t ht _
    cases t <;> simp_all [isTerminalFailure, wait_for_in_block_from]
  | cons s pre ih =>
    intro t ht h
    have hs := h s (by simp)
    have hrest := ih t ht (fun x hx => h x (List.mem_cons_of_mem s hx))
    cases s <;> simp_all [resolvesForInBlock, wait_for_in_block_from]

theorem wait_finalized_from_terminal {H : Type} (m : Metadata) (ev : H → List RawEvent) :
    ∀ (pre : List (TxStatus H)) (t : TxStatus H), isTerminalFailure t = true →
      (∀ s ∈ pre, resolvesForFinalized s = false) →
      wait_for_finalized_from m ev (pre ++ [t]) = .error (.transactionFailed t) := by
  intro pre
  induction pre with
  | nil =>
    intro t ht _
    cases t <;> simp_all [isTerminalFailure, wait_for_finalized_from]
  | cons s pre ih =>
    intro t ht h
    have hs := h s (by simp)
    have hrest := ih t ht (fun x hx => h x (List.mem_cons_of_mem s hx))
    cases s <;> simp_all [resolvesForFinalized, wait_for_finalized_from]

/-- C1: on the status sequence `Ready, Broadcast, InBlock A, InBlock B,
Finalized B` the tracker's `wait_for_finalized` resolves with block `B`'s
inspected events — its result is a function of block `B`'s event log only,
so block `A` is ignored — and on any stream containing only non-resolving
statuses (in particular an `InBlock`-only stream with no `Finalized`) it
never resolves: it consumes every status without terminating early and
ends with the connection-loss report once the stream ends. -/
theorem wait_for_finalized_supersedes {H : Type} (m : Metadata)
    (ev : H → List RawEvent) (hA hB exth : H) :
    ((TransactionProgress.mk [.ready, .broadcast, .inBlock hA, .inBlock hB, .finalized hB] exth).wait_for_finalized m ev
        = inspectEvents m (ev hB))
  ∧ (∀ tp : TransactionProgress H, (∀ s ∈ tp.sub, nonResolvingForFinalized s = true) →
      tp.wait_for_finalized m ev = .error .connection) := by
  constructor
  · simp [TransactionProgress.wait_for_finalized, wait_for_finalized_from]
  · intro tp h
    have h2 : ∀ s ∈ tp.sub, resolvesForFinalized s = false := by
      intro s hs
      have h3 := h s hs
      cases s <;> simp_all [nonResolvingForFinalized, resolvesForFinalized]
    exact wait_finalized_from_nonresolving m ev tp.sub h2

theorem wait_for_finalized_supersedes_witness :
    ((TransactionProgress.mk [TxStatus.ready, .broadcast, .inBlock 1, .inBlock 2, .finalized 2] (0 : Nat)).wait_for_finalized ⟨[]⟩ (fun _ => [.ordinary 3])
        = inspectEvents ⟨[]⟩ [.ordinary 3])
  ∧ ((TransactionProgress.mk [TxStatus.inBlock 1, .inBlock 2] (0 : Nat)).wait_for_finalized ⟨[]⟩ (fun _ => []) = .error .connection) := by
  constructor
  · exact (wait_for_finalized_supersedes (H := Nat) ⟨[]⟩ (fun _ => [.ordinary 3]) 1 2 0).1
  · exact (wait_for_finalized_supersedes (H := Nat) ⟨[]⟩ (fun _ => []) 1 2 0).2
      (TransactionProgress.mk [TxStatus.inBlock 1, .inBlock 2] 0) (by decide)

/-- C2 counterexample: the status sequence `InBlock 0, Dropped` ends in the
terminal failure `Dropped`, yet `wait_for_in_block` does not resolve with
`TransactionFailed Dropped` — it already resolved at the earlier
`InBlock` (here with that block's events, `Except.ok []`). -/
theorem wait_terminal_failure_counterexample :
    (TransactionProgress.mk [TxStatus.inBlock (0 : Nat), .dropped] 0).wait_for_in_block ⟨[]⟩ (fun _ => [])
      ≠ .error (.transactionFailed .dropped) := by decide

/-- C2 (amended): for every status sequence ending in a terminal failure
status `Dropped`, `Invalid` or `Usurped` in which no earlier status already
resolves the respective wait (no earlier `InBlock` or terminal failure for
`wait_for_in_block`; no earlier `Finalized` or terminal failure for
`wait_for_finalized`), both waits resolve immediately with
`Error::TransactionFailed` carrying the reported status; and a connection
loss mid-subscription (the stream ending without a resolving status) ends
either wait with `Error::Connection` — the tracker performs no retry. -/
theorem wait_terminal_failure {H : Type} (m : Metadata) (ev : H → List RawEvent) (exth : H) :
    (∀ (pre : List (TxStatus H)) (t : TxStatus H), isTerminalFailure t = true →
      ((∀ s ∈ pre, resolvesForInBlock s = false) →
        (TransactionProgress.mk (pre ++ [t]) exth).wait_for_in_block m ev
          = .error (.transactionFailed t))
    ∧ ((∀ s ∈ pre, resolvesForFinalized s = false) →
        (TransactionProgress.mk (pre ++ [t]) exth).wait_for_finalized m ev
          = .error (.transactionFailed t)))
  ∧ (∀ stream : List (TxStatus H),
      ((∀ s ∈ stream, resolvesForInBlock s = false) →
        (TransactionProgress.mk stream exth).wait_for_in_block m ev = .error .connection)
    ∧ ((∀ s ∈ stream, resolvesForFinalized s = false) →
        (TransactionProgress.mk stream exth).wait_for_finalized m ev = .error .connection)) := by
  constructor
  · intro pre t ht
    exact ⟨fun h => wait_in_block_from_terminal m ev pre t ht h,
           fun h => wait_finalized_from_terminal m ev pre t ht h⟩
  · intro stream
    exact ⟨fun h => wait_in_block_from_nonresolving m ev stream h,
           fun h => wait_finalized_from_nonresolving m ev stream h⟩

theorem wait_terminal_failure_witness :
    ((TransactionProgress.mk [TxStatus.ready, .dropped] (0 : Nat)).wait_for_in_block ⟨[]⟩ (fun _ => [])
        = .error (.transactionFailed .dropped))
  ∧ ((TransactionProgress.mk [TxStatus.ready, .dropped] (0 : Nat)).wait_for_finalized ⟨[]⟩ (fun _ => [])
        = .error (.transactionFailed .dropped))
  ∧ ((TransactionProgress.mk [TxStatus.ready, .broadcast] (0 : Nat)).wait_for_in_block ⟨[]⟩ (fun _ => [])
        = .error .connection) := by
  refine ⟨?_, ?_, ?_⟩
  · exact ((wait_terminal_failure (H := Nat) ⟨[]⟩ (fun _ => []) 0).1 [TxStatus.ready] .dropped (by decide)).1 (by decide)
  · exact ((wait_terminal_failure (H := Nat) ⟨[]⟩ (fun _ => []) 0).1 [TxStatus.ready] .dropped (by decide)).2 (by decide)
  · exact ((wait_terminal_failure (H := Nat) ⟨[]⟩ (fun _ => []) 0).2 [TxStatus.ready, .broadcast]).1 (by decide)

/-! ## Client lemmas -/

/-- Trace entries that are nonce lookups. -/
def isNextIndex {H A Sig P : Type} : RpcCall H A Sig P → Bool
  | .nextIndex _ => true
  | _ => false

theorem create_signed_trace_some {H A Sig P : Type} (se : SubmittableExtrinsic H A Sig P)
    (signer : Signer H A Sig P) (ap : P) (n : Nat) (hn : signer.nonce = some n) :
    (se.create_signed signer ap).2 = [] := by
  unfold SubmittableExtrinsic.create_signed
  simp only [hn]
  rcases hcall : (se.client.metadata.pallet se.call.pallet).bind
      (fun pallet => pallet.encode_call se.call) with e | cb <;> simp [hcall]

theorem create_signed_trace_none {H A Sig P : Type} (se : SubmittableExtrinsic H A Sig P)
    (signer : Signer H A Sig P) (ap : P) (hn : signer.nonce = none) :
    (se.create_signed signer ap).2 = [.nextIndex signer.account_id] := by
  unfold SubmittableExtrinsic.create_signed
  simp only [hn]
  rcases hrpc : se.client.rpc.system_account_next_index signer.account_id with e | k
  · simp [hrpc]
  · rcases hcall : (se.client.metadata.pallet se.call.pallet).bind
        (fun pallet => pallet.encode_call se.call) with e | cb <;> simp [hrpc, hcall]

theorem create_signed_trace_filter {H A Sig P : Type} (se : SubmittableExtrinsic H A Sig P)
    (signer : Signer H A Sig P) (ap : P) :
    ((se.create_signed signer ap).2).filter isNextIndex = (se.create_signed signer ap).2 := by
  rcases hn : signer.nonce with _ | n
  · rw [create_signed_trace_none se signer ap hn]
    simp [isNextIndex]
  · rw [create_signed_trace_some se signer ap n hn]
    rfl

theorem create_signed_trace_all_nextIndex {H A Sig P : Type}
    (se : SubmittableExtrinsic H A Sig P) (signer : Signer H A Sig P) (ap : P) :
    ∀ x ∈ (se.create_signed signer ap).2, isNextIndex x = true := by
  rcases hn : signer.nonce with _ | n
  · rw [create_signed_trace_none se signer ap hn]
    intro x hx
    simp at hx
    simp [hx, isNextIndex]
  · rw [create_signed_trace_some se signer ap n hn]
    intro x hx
    simp at hx

/-- Inversion of a successful `create_signed`: the nonce is the signer's
explicit one or the node-reported next index, the call bytes come from the
metadata resolution, and the signer signed the payload made of the
client's connection facts, the nonce, the call bytes and the additional
parameters. -/
theorem create_signed_ok_inv {H A Sig P : Type} (se : SubmittableExtrinsic H A Sig P)
    (signer : Signer H A Sig P) (ap : P) (ext : UncheckedExtrinsic A Sig P)
    (hext : (se.create_signed signer ap).1 = .ok ext) :
    ∃ nonce callBytes sig,
      ((signer.nonce = some nonce)
        ∨ (signer.nonce = none
           ∧ se.client.rpc.system_account_next_index signer.account_id = .ok nonce))
    ∧ (se.client.metadata.pallet se.call.pallet).bind
        (fun pallet => pallet.encode_call se.call) = .ok callBytes
    ∧ signer.sign { runtime_version := se.client.runtime_version,
                    genesis_hash := se.client.genesis_hash, nonce := nonce,
                    call := callBytes, additional_params := ap } = some sig
    ∧ ext = { account_id := signer.account_id, signature := sig, nonce := nonce,
              additional_params := ap, call := callBytes } := by
  unfold SubmittableExtrinsic.create_signed at hext
  rcases hn : signer.nonce with _ | n
  · simp only [hn] at hext
    rcases hrpc : se.client.rpc.system_account_next_index signer.account_id with e | k
    · simp only [hrpc] at hext
      simp at hext
    · simp only [hrpc] at hext
      rcases hcall : (se.client.metadata.pallet se.call.pallet).bind
          (fun pallet => pallet.encode_call se.call) with e | cb
      · simp only [hcall] at hext
        simp at hext
      · simp only [hcall, extrinsicCreateSigned] at hext
        rcases hsig : signer.sign (SignedPayload.mk se.client.runtime_version
            se.client.genesis_hash k cb ap) with _ | sig
        · simp only [hsig] at hext
          simp at hext
        · simp only [hsig] at hext
          simp at hext
          exact ⟨k, cb, sig, .inr ⟨rfl, rfl⟩, rfl, hsig, hext.symm⟩
  · simp only [hn] at hext
    rcases hcall : (se.client.metadata.pallet se.call.pallet).bind
        (fun pallet => pallet.encode_call se.call) with e | cb
    · simp only [hcall] at hext
      simp at hext
    · simp only [hcall, extrinsicCreateSigned] at hext
      rcases hsig : signer.sign (SignedPayload.mk se.client.runtime_version
          se.client.genesis_hash n cb ap) with _ | sig
      · simp only [hsig] at hext
        simp at hext
      · simp only [hsig] at hext
        simp at hext
        exact ⟨n, cb, sig, .inl rfl, rfl, hsig, hext.symm⟩

/-! ## Concrete instances used by witnesses (all type parameters are `Nat`) -/

/-- A concrete RPC oracle over `Nat`-typed hashes/accounts. -/
def rpcNat : Rpc Nat Nat Nat Nat where
  system_account_next_index := fun _ => .ok 5
  submit_extrinsic := fun _ => .ok 99
  watch_extrinsic := fun _ => .ok [.ready]

/-- A concrete metadata index with one pallet and one call. -/
def metadataNat : Metadata :=
  ⟨[⟨"Balances", 4, [⟨"transfer", [.compact]⟩], ["InsufficientBalance"]⟩]⟩

/-- A concrete client assembled from the pieces above. -/
def clientNat : Client Nat Nat Nat Nat where
  rpc := rpcNat
  genesis_hash := 7
  metadata := metadataNat
  properties := default
  runtime_version := ⟨1, 2⟩
  iter_page_size := 10
  hashing := fun ext => ext.nonce + 1000

/-- A concrete signer supplying an explicit nonce. -/
def signerNat : Signer Nat Nat Nat Nat where
  account_id := 42
  nonce := some 3
  sign := fun p => some (p.nonce + 1)

/-- A concrete signer supplying no nonce. -/
def signerNatNoNonce : Signer Nat Nat Nat Nat where
  account_id := 42
  nonce := none
  sign := fun p => some (p.nonce + 1)

/-- A concrete well-formed call value. -/
def callNat : Call := ⟨"Balances", "transfer", .cons (.compact 9) .nil⟩

/-- A concrete submittable extrinsic. -/
def seNat : SubmittableExtrinsic Nat Nat Nat Nat := ⟨clientNat, callNat⟩

/-- Concrete fetch results whose properties fetch failed. -/
def fetchNat : FetchResults Nat where
  metadata := .ok metadataNat
  genesis_hash := .ok 7
  runtime_version := .ok ⟨1, 2⟩
  properties := .error .connection

/-! ## Client claims -/

/-- C4: nonce policy of `create_signed` — an explicit signer nonce is used
as is and no next-index lookup is performed; with no explicit nonce
exactly one `system_account_next_index` query for the signer's account is
made, its failure propagates, and its result becomes the extrinsic's
account nonce; and every submission entry point performs exactly the nonce
lookups of `create_signed` (its trace restricted to nonce lookups is
`create_signed`'s trace). -/
theorem create_signed_nonce_policy {H A Sig P : Type} [Inhabited P]
    (se : SubmittableExtrinsic H A Sig P) (signer : Signer H A Sig P) (ap : P) :
    (∀ n, signer.nonce = some n →
        (se.create_signed signer ap).2 = []
      ∧ (∀ ext, (se.create_signed signer ap).1 = .ok ext → ext.nonce = n))
  ∧ (signer.nonce = none →
        (se.create_signed signer ap).2 = [.nextIndex signer.account_id]
      ∧ (∀ e, se.client.rpc.system_account_next_index signer.account_id = .error e →
          (se.create_signed signer ap).1 = .error e)
      ∧ (∀ k, se.client.rpc.system_account_next_index signer.account_id = .ok k →
          ∀ ext, (se.create_signed signer ap).1 = .ok ext → ext.nonce = k))
  ∧ (((se.sign_and_submit signer).2).filter isNextIndex
        = (se.create_signed signer default).2
   ∧ ((se.sign_and_submit_then_watch signer).2).filter isNextIndex
        = (se.create_signed signer default).2
   ∧ ((se.sign_and_submit_with_additional signer ap).2).filter isNextIndex
        = (se.create_signed signer ap).2
   ∧ ((se.sign_and_submit_with_aditional_then_watch signer ap).2).filter isNextIndex
        = (se.create_signed signer ap).2) := by
  have hsubmit : ∀ ap2 : P, ((se.sign_and_submit_with_additional signer ap2).2).filter isNextIndex
      = (se.create_signed signer ap2).2 := by
    intro ap2
    unfold SubmittableExtrinsic.sign_and_submit_with_additional
    have hf := create_signed_trace_filter se signer ap2
    rcases hcs : se.create_signed signer ap2 with ⟨res, tr⟩
    rw [hcs] at hf
    rcases res with e | ext
    · simpa using hf
    · rcases hw : se.client.rpc.submit_extrinsic ext with e | h2 <;>
        simp [hw, List.filter_append, isNextIndex] <;> simpa using hf
  have hwatch : ∀ ap2 : P, ((se.sign_and_submit_with_aditional_then_watch signer ap2).2).filter isNextIndex
      = (se.create_signed signer ap2).2 := by
    intro ap2
    unfold SubmittableExtrinsic.sign_and_submit_with_aditional_then_watch
    have hf := create_signed_trace_filter se signer ap2
    rcases hcs : se.create_signed signer ap2 with ⟨res, tr⟩
    rw [hcs] at hf
    rcases res with e | ext
    · simpa using hf
    · rcases hw : se.client.rpc.watch_extrinsic ext with e | h2 <;>
        simp [hw, List.filter_append, isNextIndex] <;> simpa using hf
  have hwatchDefault : ((se.sign_and_submit_then_watch signer).2).filter isNextIndex
      = (se.create_signed signer default).2 := by
    unfold SubmittableExtrinsic.sign_and_submit_then_watch
    have hf := create_signed_trace_filter se signer (default : P)
    rcases hcs : se.create_signed signer default with ⟨res, tr⟩
    rw [hcs] at hf
    rcases res with e | ext
    · simpa using hf
    · rcases hw : se.client.rpc.watch_extrinsic ext with e | h2 <;>
        simp [hw, List.filter_append, isNextIndex] <;> simpa using hf
  refine ⟨?_, ?_, hsubmit default, hwatchDefault, hsubmit ap, hwatch ap⟩
  · intro n hn
    refine ⟨create_signed_trace_some se signer ap n hn, ?_⟩
    intro ext hext
    obtain ⟨nonce, cb, sig, hres, -, -, hexteq⟩ := create_signed_ok_inv se signer ap ext hext
    rcases hres with h1 | ⟨h1, -⟩
    · rw [hn] at h1
      injection h1 with h2
      rw [hexteq, ← h2]
    · rw [hn] at h1
      cases h1
  · intro hn
    refine ⟨create_signed_trace_none se signer ap hn, ?_, ?_⟩
    · intro e he
      unfold SubmittableExtrinsic.create_signed
      simp [hn, he]
    · intro k hk ext hext
      obtain ⟨nonce, cb, sig, hres, -, -, hexteq⟩ := create_signed_ok_inv se signer ap ext hext
      rcases hres with h1 | ⟨-, h1⟩
      · rw [hn] at h1
        cases h1
      · rw [hk] at h1
        injection h1 with h2
        rw [hexteq, h2]

theorem create_signed_nonce_policy_witness :
    ((seNat.create_signed signerNat 0).2 = []
      ∧ ∀ ext, (seNat.create_signed signerNat 0).1 = .ok ext → ext.nonce = 3)
  ∧ ((seNat.create_signed signerNatNoNonce 0).2 = [.nextIndex 42]
      ∧ ∀ ext, (seNat.create_signed signerNatNoNonce 0).1 = .ok ext → ext.nonce = 5) := by
  constructor
  · have h := (create_signed_nonce_policy seNat signerNat 0).1 3 rfl
    exact ⟨h.1, h.2⟩
  · have h := (create_signed_nonce_policy seNat signerNatNoNonce 0).2.1 rfl
    exact ⟨h.1, h.2.2 5 rfl⟩

/-- C5: `sign_and_submit_then_watch` returns a transaction progress tracker
bound to the watch subscription and keyed by the extrinsic's pre-inclusion
hash — the `Config`-level hash of the signed extrinsic, computed
client-side before submission as a function of the extrinsic alone (no
block is involved, so it is not a block-inclusion hash). -/
theorem then_watch_keyed_by_pre_inclusion_hash {H A Sig P : Type} [Inhabited P]
    (se : SubmittableExtrinsic H A Sig P) (signer : Signer H A Sig P)
    (ext : UncheckedExtrinsic A Sig P) (sub : List (TxStatus H))
    (hext : (se.create_signed signer default).1 = .ok ext)
    (hsub : se.client.rpc.watch_extrinsic ext = .ok sub) :
    (se.sign_and_submit_then_watch signer).1
      = .ok { sub := sub, ext_hash := se.client.hashing ext } := by
  unfold SubmittableExtrinsic.sign_and_submit_then_watch
  have hx : se.create_signed signer default
      = (Except.ok ext, (se.create_signed signer default).2) := by
    rw [← hext]
  rw [hx]
  simp [hsub]

theorem then_watch_keyed_by_pre_inclusion_hash_witness :
    (seNat.sign_and_submit_then_watch signerNat).1
      = .ok { sub := [TxStatus.ready], ext_hash := 1003 } := by
  exact then_watch_keyed_by_pre_inclusion_hash seNat signerNat
    { account_id := 42, signature := 4, nonce := 3, additional_params := 0, call := [4, 0, 36] }
    [TxStatus.ready] (by decide) (by decide)

/-- C10: the parameterless entry points are exactly the parameterized ones
applied at the default additional-parameters value — `sign_and_submit`
equals `sign_and_submit_with_additional` at `default`, and
`sign_and_submit_then_watch` equals
`sign_and_submit_with_aditional_then_watch` at `default` (same signed
extrinsic, same result, same RPC trace). -/
theorem default_entry_points_refine {H A Sig P : Type} [Inhabited P]
    (se : SubmittableExtrinsic H A Sig P) (signer : Signer H A Sig P) :
    se.sign_and_submit signer = se.sign_and_submit_with_additional signer default
  ∧ se.sign_and_submit_then_watch signer
      = se.sign_and_submit_with_aditional_then_watch signer default :=
  ⟨rfl, rfl⟩

/-- C9: transport selection in `ClientBuilder::build` — a pre-supplied
transport handle is always used and the configured URL is ignored (the
result is the same for every URL); with no handle the connection is made
to the configured URL, and with neither to the well-known local default
`ws://127.0.0.1:9944`; `build` continues with the resolved handle and
propagates a transport failure. -/
theorem build_transport_selection {RC H A Sig P : Type} (b : ClientBuilder RC)
    (ws : String → Except (BasicError H) RC) (rpcOf : RC → Rpc H A Sig P)
    (hashing : UncheckedExtrinsic A Sig P → H) (fetchOf : RC → FetchResults H) :
    (∀ rc, b.client = some rc →
        ∀ u, ClientBuilder.resolveRpcClient { b with url := u } ws = .ok rc)
  ∧ (b.client = none → ∀ u, b.url = some u → b.resolveRpcClient ws = ws u)
  ∧ (b.client = none → b.url = none →
        b.resolveRpcClient ws = ws "ws://127.0.0.1:9944")
  ∧ (∀ rc, b.resolveRpcClient ws = .ok rc →
        b.build ws rpcOf hashing fetchOf
          = ClientBuilder.buildFrom (rpcOf rc) hashing (fetchOf rc) b.page_size)
  ∧ (∀ e, b.resolveRpcClient ws = .error e →
        b.build ws rpcOf hashing fetchOf = .error e) := by
  refine ⟨?_, ?_, ?_, ?_, ?_⟩
  · intro rc hrc u
    simp [ClientBuilder.resolveRpcClient, hrc]
  · intro h1 u h2
    simp [ClientBuilder.resolveRpcClient, h1, h2]
  · intro h1 h2
    simp [ClientBuilder.resolveRpcClient, h1, h2]
  · intro rc hrc
    simp [ClientBuilder.build, hrc]
  · intro e he
    simp [ClientBuilder.build, he]

theorem build_transport_selection_witness :
    (ClientBuilder.resolveRpcClient (H := Nat)
        { url := some "ws://other", client := some 1, page_size := none }
        (fun _ => .ok (2 : Nat)) = .ok 1)
  ∧ (ClientBuilder.resolveRpcClient (H := Nat)
        { url := some "ws://example:443", client := none, page_size := none }
        (fun s => .ok s.length) = .ok ("ws://example:443".length))
  ∧ (ClientBuilder.resolveRpcClient (H := Nat)
        { url := none, client := none, page_size := none }
        (fun s => .ok s.length) = .ok ("ws://127.0.0.1:9944".length)) := by
  refine ⟨?_, ?_, ?_⟩
  · exact (build_transport_selection
      { url := some "ws://ignored", client := some 1, page_size := none }
      (fun _ => .ok (2 : Nat)) (fun _ => rpcNat) (fun ext => ext.nonce)
      (fun _ => fetchNat)).1 1 rfl (some "ws://other")
  · exact (build_transport_selection
      { url := some "ws://example:443", client := none, page_size := none }
      (fun s => .ok s.length) (fun _ => rpcNat) (fun ext => ext.nonce)
      (fun _ => fetchNat)).2.1 rfl "ws://example:443" rfl
  · exact (build_transport_selection
      { url := none, client := none, page_size := none }
      (fun s => .ok s.length) (fun _ => rpcNat) (fun ext => ext.nonce)
      (fun _ => fetchNat)).2.2.1 rfl rfl

/-- C3: `ClientBuilder::build` performs the four connection-time fetches as
one join (all four results are delivered together in `FetchResults`,
independently of one another) and only then examines them: a failed
metadata, genesis-hash or runtime-version fetch makes the build return
that error, while with those three successful the build succeeds whatever
the properties result — a failed properties fetch alone does not fail the
build, the client then carrying the default properties value. -/
theorem build_fetch_error_policy {RC H A Sig P : Type} (b : ClientBuilder RC)
    (ws : String → Except (BasicError H) RC) (rpcOf : RC → Rpc H A Sig P)
    (hashing : UncheckedExtrinsic A Sig P → H) (fetchOf : RC → FetchResults H)
    (rc : RC) (hrc : b.resolveRpcClient ws = .ok rc) :
    (∀ e, (fetchOf rc).metadata = .error e →
        b.build ws rpcOf hashing fetchOf = .error e)
  ∧ (∀ md e, (fetchOf rc).metadata = .ok md → (fetchOf rc).genesis_hash = .error e →
        b.build ws rpcOf hashing fetchOf = .error e)
  ∧ (∀ md g e, (fetchOf rc).metadata = .ok md → (fetchOf rc).genesis_hash = .ok g →
        (fetchOf rc).runtime_version = .error e →
        b.build ws rpcOf hashing fetchOf = .error e)
  ∧ (∀ md g rv, (fetchOf rc).metadata = .ok md → (fetchOf rc).genesis_hash = .ok g →
        (fetchOf rc).runtime_version = .ok rv →
        b.build ws rpcOf hashing fetchOf
          = .ok { rpc := rpcOf rc, genesis_hash := g, metadata := md,
                  properties := (match (fetchOf rc).properties with
                                 | .ok props => props
                                 | .error _ => default),
                  runtime_version := rv, iter_page_size := b.page_size.getD 10,
                  hashing := hashing })
  ∧ (∀ md g rv e, (fetchOf rc).metadata = .ok md → (fetchOf rc).genesis_hash = .ok g →
        (fetchOf rc).runtime_version = .ok rv → (fetchOf rc).properties = .error e →
        ∃ client, b.build ws rpcOf hashing fetchOf = .ok client
          ∧ client.properties = default ∧ client.genesis_hash = g
          ∧ client.metadata = md ∧ client.runtime_version = rv) := by
  refine ⟨?_, ?_, ?_, ?_, ?_⟩
  · intro e h1
    simp [ClientBuilder.build, hrc, ClientBuilder.buildFrom, h1]
  · intro md e h1 h2
    simp [ClientBuilder.build, hrc, ClientBuilder.buildFrom, h1, h2]
  · intro md g e h1 h2 h3
    simp [ClientBuilder.build, hrc, ClientBuilder.buildFrom, h1, h2, h3]
  · intro md g rv h1 h2 h3
    simp [ClientBuilder.build, hrc, ClientBuilder.buildFrom, h1, h2, h3]
  · intro md g rv e h1 h2 h3 h4
    refine ⟨{ rpc := rpcOf rc, genesis_hash := g, metadata := md, properties := default,
              runtime_version := rv, iter_page_size := b.page_size.getD 10,
              hashing := hashing }, ?_, rfl, rfl, rfl, rfl⟩
    simp [ClientBuilder.build, hrc, ClientBuilder.buildFrom, h1, h2, h3, h4]

theorem build_fetch_error_policy_witness :
    ∃ client, ClientBuilder.build (H := Nat)
        { url := none, client := some 0, page_size := none }
        (fun _ => .error .connection) (fun _ => rpcNat) (fun ext => ext.nonce)
        (fun _ => fetchNat) = .ok client
      ∧ client.properties = default ∧ client.genesis_hash = 7
      ∧ client.metadata = metadataNat ∧ client.runtime_version = ⟨1, 2⟩ := by
  exact (build_fetch_error_policy
    { url := none, client := some 0, page_size := none }
    (fun _ => .error .connection) (fun _ => rpcNat) (fun ext => ext.nonce)
    (fun _ => fetchNat) 0 rfl).2.2.2.2 metadataNat 7 ⟨1, 2⟩ .connection rfl rfl rfl rfl

/-- C8: the genesis hash and runtime version captured by a successful
connection build are the client's values for its whole lifetime (every
client operation in `client.rs` takes the client immutably and none
produces a modified client, so in this pure embedding they are fixed by
construction), and a successful `create_signed` on such a client offers
the signer exactly these connection-level values — together with the
resolved nonce, the metadata-encoded call bytes and the additional
parameters — as the signing material. -/
theorem connection_facts_are_signing_material {H A Sig P : Type}
    (rpc : Rpc H A Sig P) (hashing : UncheckedExtrinsic A Sig P → H)
    (f : FetchResults H) (ps : Option Nat) (md : Metadata) (g : H) (rv : RuntimeVersion)
    (hm : f.metadata = .ok md) (hg : f.genesis_hash = .ok g)
    (hr : f.runtime_version = .ok rv) :
    ∃ client, ClientBuilder.buildFrom rpc hashing f ps = .ok client
    ∧ client.genesis_hash = g ∧ client.runtime_version = rv
    ∧ ∀ (call : Call) (signer : Signer H A Sig P) (ap : P)
        (ext : UncheckedExtrinsic A Sig P),
        ((SubmittableExtrinsic.mk client call).create_signed signer ap).1 = .ok ext →
        ∃ callBytes,
          (client.metadata.pallet call.pallet).bind
              (fun pallet => pallet.encode_call call) = .ok callBytes
        ∧ ext.call = callBytes
        ∧ ext.account_id = signer.account_id
        ∧ ext.additional_params = ap
        ∧ signer.sign { runtime_version := rv, genesis_hash := g, nonce := ext.nonce,
                        call := callBytes, additional_params := ap }
            = some ext.signature := by
  refine ⟨{ rpc := rpc, genesis_hash := g, metadata := md,
            properties := (match f.properties with
                           | .ok props => props
                           | .error _ => default),
            runtime_version := rv, iter_page_size := ps.getD 10, hashing := hashing },
          ?_, rfl, rfl, ?_⟩
  · simp [ClientBuilder.buildFrom, hm, hg, hr]
  intro call signer ap ext hext
  obtain ⟨nonce, cb, sig, -, hcall, hsig, hexteq⟩ :=
    create_signed_ok_inv (SubmittableExtrinsic.mk _ call) signer ap ext hext
  refine ⟨cb, hcall, by rw [hexteq], by rw [hexteq], by rw [hexteq], ?_⟩
  rw [hexteq]
  exact hsig

theorem connection_facts_are_signing_material_witness :
    ∃ client, ClientBuilder.buildFrom rpcNat (fun ext => ext.nonce + 1000) fetchNat (some 10)
        = .ok client
    ∧ client.genesis_hash = 7 ∧ client.runtime_version = ⟨1, 2⟩ := by
  obtain ⟨client, h1, h2, h3, -⟩ := connection_facts_are_signing_material rpcNat
    (fun ext => ext.nonce + 1000) fetchNat (some 10) metadataNat 7 ⟨1, 2⟩ rfl rfl rfl
  exact ⟨client, h1, h2, h3⟩

theorem findCall_eq_none (n : String) : ∀ (cms : List PalletCallMeta) (i : Nat),
    (∀ cm ∈ cms, cm.name ≠ n) → findCall cms n i = none := by
  intro cms
  induction cms with
  | nil => intro i _; rfl
  | cons cm cms ih =>
    intro i h
    have h1 : cm.name ≠ n := h cm (by simp)
    simp only [findCall, h1, if_false]
    exact ih (i + 1) (fun x hx => h x (List.mem_cons_of_mem cm hx))

/-- A submittable extrinsic whose call variant is absent from the metadata. -/
def seBadCall : SubmittableExtrinsic Nat Nat Nat Nat :=
  ⟨clientNat, ⟨"Balances", "unknown", .nil⟩⟩

/-- C6: resolving a call whose pallet or call variant is absent from the
loaded metadata fails with `PalletNotFound`/`CallNotFound`, and a
successful resolution never produces empty encoded bytes (the pallet and
call index bytes are always present); `create_signed` propagates the
resolution failure as a `metadataError`, and whenever `create_signed`
fails every submission entry point returns that error without performing
any submit or watch RPC call (its trace holds nonce lookups only). -/
theorem unknown_call_policy {H A Sig P : Type} [Inhabited P] :
    (∀ (m : Metadata) (name : String), (∀ p ∈ m.pallets, p.name ≠ name) →
        m.pallet name = .error .PalletNotFound)
  ∧ (∀ (p : PalletMetadata) (c : Call), (∀ cm ∈ p.calls, cm.name ≠ c.function) →
        p.encode_call c = .error .CallNotFound)
  ∧ (∀ (p : PalletMetadata) (c : Call) (bs : List Nat),
        p.encode_call c = .ok bs → bs ≠ [])
  ∧ (∀ (se : SubmittableExtrinsic H A Sig P) (signer : Signer H A Sig P) (ap : P)
        (e : MetadataError),
        (se.client.metadata.pallet se.call.pallet).bind
            (fun pallet => pallet.encode_call se.call) = .error e →
        (∀ n, signer.nonce = some n →
            se.create_signed signer ap = (.error (.metadataError e), []))
      ∧ (∀ k, signer.nonce = none →
            se.client.rpc.system_account_next_index signer.account_id = .ok k →
            se.create_signed signer ap
              = (.error (.metadataError e), [.nextIndex signer.account_id])))
  ∧ (∀ (se : SubmittableExtrinsic H A Sig P) (signer : Signer H A Sig P) (ap : P)
        (e2 : BasicError H) (tr : List (RpcCall H A Sig P)),
        se.create_signed signer ap = (.error e2, tr) →
        se.sign_and_submit_with_additional signer ap = (.error e2, tr)
      ∧ se.sign_and_submit_with_aditional_then_watch signer ap = (.error e2, tr)
      ∧ (∀ x ∈ tr, isNextIndex x = true))
  ∧ (∀ (se : SubmittableExtrinsic H A Sig P) (signer : Signer H A Sig P)
        (e2 : BasicError H) (tr : List (RpcCall H A Sig P)),
        se.create_signed signer default = (.error e2, tr) →
        se.sign_and_submit signer = (.error e2, tr)
      ∧ se.sign_and_submit_then_watch signer = (.error e2, tr)) := by
  refine ⟨?_, ?_, ?_, ?_, ?_, ?_⟩
  · intro m name h
    have hf : m.pallets.find? (fun p => p.name == name) = none := by
      rw [List.find?_eq_none]
      intro x hx
      simp [h x hx]
    simp [Metadata.pallet, hf]
  · intro p c h
    have hf : findCall p.calls c.function 0 = none := findCall_eq_none c.function p.calls 0 h
    simp [PalletMetadata.encode_call, hf]
  · intro p c bs h
    unfold PalletMetadata.encode_call at h
    rcases hf : findCall p.calls c.function 0 with _ | ⟨ci, cm⟩
    · rw [hf] at h
      simp at h
    · rw [hf] at h
      rcases he : encodeArgs c.args cm.args with e | bs2
      · simp [he] at h
      · simp [he] at h
        rw [← h]
        simp
  · intro se signer ap e he
    constructor
    · intro n hn
      unfold SubmittableExtrinsic.create_signed
      simp [hn, he]
    · intro k hn hk
      unfold SubmittableExtrinsic.create_signed
      simp [hn, hk, he]
  · intro se signer ap e2 tr hcs
    refine ⟨?_, ?_, ?_⟩
    · unfold SubmittableExtrinsic.sign_and_submit_with_additional
      rw [hcs]
    · unfold SubmittableExtrinsic.sign_and_submit_with_aditional_then_watch
      rw [hcs]
    · have h3 := create_signed_trace_all_nextIndex se signer ap
      rw [hcs] at h3
      exact h3
  · intro se signer e2 tr hcs
    constructor
    · unfold SubmittableExtrinsic.sign_and_submit
        SubmittableExtrinsic.sign_and_submit_with_additional
      rw [hcs]
    · unfold SubmittableExtrinsic.sign_and_submit_then_watch
      rw [hcs]

theorem unknown_call_policy_witness :
    (metadataNat.pallet "Missing" = .error .PalletNotFound)
  ∧ (seBadCall.create_signed signerNat 0 = (.error (.metadataError .CallNotFound), []))
  ∧ (([4, 0, 36] : List Nat) ≠ [])
  ∧ (seBadCall.sign_and_submit_with_additional signerNat 0
      = (.error (.metadataError .CallNotFound), [])) := by
  have hcs : seBadCall.create_signed signerNat 0
      = (.error (.metadataError .CallNotFound), []) :=
    (@unknown_call_policy Nat Nat Nat Nat _).2.2.2.1
      seBadCall signerNat 0 .CallNotFound (by decide) |>.1 3 rfl
  refine ⟨?_, hcs, ?_, ?_⟩
  · exact (@unknown_call_policy Nat Nat Nat Nat _).1
      metadataNat "Missing" (by decide)
  · exact (@unknown_call_policy Nat Nat Nat Nat _).2.2.1
      (PalletMetadata.mk "Balances" 4 [⟨"transfer", [.compact]⟩] ["InsufficientBalance"])
      callNat [4, 0, 36] (by decide)
  · exact ((@unknown_call_policy Nat Nat Nat Nat _).2.2.2.2.1
      seBadCall signerNat 0 (.metadataError .CallNotFound) [] hcs).1

/-- C7: for every representable value `v` of a supported shape (fixed-width
little-endian integers, compact integers, compact-length-prefixed
sequences, fixed-size byte arrays, single-byte-discriminant tagged
unions), `decode (encode v) = v` with the remaining input returned
untouched — `encode` being a total function on these shapes, hence
deterministic — while decoding any strict prefix of an encoding
(truncated input) fails with a `DecodeError`, and a union discriminant
byte outside the declared variant range fails with `badDiscriminant`. -/
theorem codec_roundtrip_and_failure :
    (∀ (v : Value) (t : TypeDesc), hasType v t = true →
        ∀ rest, decode t (encode v ++ rest) = .ok (v, rest))
  ∧ (∀ (v : Value) (t : TypeDesc), hasType v t = true →
        ∀ p q, encode v = p ++ q → q ≠ [] → ∃ e, decode t p = .error e)
  ∧ (∀ (ts : List TypeDesc) (b : Nat) (bs : List Nat), ts.length ≤ b →
        decode (.union ts) (b :: bs) = .error (.badDiscriminant b)) :=
  ⟨decode_encode, decode_trunc, decode_badDiscriminant⟩

theorem codec_roundtrip_and_failure_witness :
    (decode (.seq .compact) (encode (.seq (.cons (.compact 70) .nil)) ++ [9])
        = .ok (.seq (.cons (.compact 70) .nil), [9]))
  ∧ (∃ e, decode (.uint 2) [5] = .error e)
  ∧ (decode (.union []) [0] = .error (.badDiscriminant 0)) := by
  refine ⟨?_, ?_, ?_⟩
  · exact codec_roundtrip_and_failure.1 (.seq (.cons (.compact 70) .nil))
      (.seq .compact) (by decide) [9]
  · exact codec_roundtrip_and_failure.2.1 (.uint 2 5) (.uint 2) (by decide)
      [5] [0] (by decide) (by decide)
  · exact codec_roundtrip_and_failure.2.2 [] 0 [] (by decide)

end Subxt
